import Mathlib

/-!
Verification of the `oclgrep` command-line driver (`src/main.cpp`).

The driver is modelled shallowly:

* code points and machine words (`serial::word`, `serial::id`,
  `serial::character` are all 32-bit words of one buffer) are `Nat`;
* the chunking loop of `main` (lines 162–175) is a fueled recursion
  `chunkLoop` / `chunkLoopO`; the `Option` variant returns `none` exactly
  when the fuel is exhausted while the loop guard is still true, i.e. when
  the real loop has not terminated within the fuel bound;
* the external collaborators that are not part of this translation unit
  (UTF-8/UTF-32 decoding, NFKC normalization, the regex parser
  `string_to_graph`, and the OpenCL runner's `run`) enter as function
  parameters, so every theorem quantifies over their behaviour;
* `print_graph` (lines 29–65) is translated as a function producing the
  structured record it prints; raw buffer indexing `g.data[i]`, which in
  C++ is defined only in bounds, is totalized as `List.getD _ _ 0` on both
  the source side and the specification side.
-/

/-- One chunk-loop iteration state, following `main.cpp` lines 162–167:
starting from `offset`, the window is `text[offset, min (offset + w) text.length)`
and the loop advances by `offset += w`.  `fuel` bounds the number of
iterations that are unfolded. -/
def chunkLoop (text : List Nat) (w : Nat) : Nat → Nat → List (Nat × List Nat)
  | 0, _ => []
  | fuel + 1, offset =>
    if offset < text.length then
      let e := min (offset + w) text.length
      (offset, (text.drop offset).take (e - offset)) :: chunkLoop text w fuel (offset + w)
    else []

/-- Fueled interpreter of the same loop that distinguishes running out of
fuel (`none`, the loop is still running) from the guard becoming false
(`some`, the loop exited). -/
def chunkLoopO (text : List Nat) (w : Nat) : Nat → Nat → Option (List (Nat × List Nat))
  | 0, offset => if offset < text.length then none else some []
  | fuel + 1, offset =>
    if offset < text.length then
      let e := min (offset + w) text.length
      (chunkLoopO text w fuel (offset + w)).map
        (fun rest => (offset, (text.drop offset).take (e - offset)) :: rest)
    else some []

/-- The list of `(base offset, window)` pairs produced by the loop of
`main.cpp` lines 162–167.  Fuel `text.length` iterations suffice for every
positive `w` (proved below), so this is the loop's result whenever the loop
terminates. -/
def chunks (text : List Nat) (w : Nat) : List (Nat × List Nat) :=
  chunkLoop text w text.length 0

/-- The match positions printed by `main.cpp` lines 170–174: for each
window `(offset, c)` and each local index `idx` returned by `runner.run c`,
the number `offset + idx` is printed. -/
def matchOutput (run : List Nat → List Nat) (cs : List (Nat × List Nat)) : List Nat :=
  (cs.map (fun p => (run p.2).map (fun idx => p.1 + idx))).flatten

/-- Fuel bookkeeping: one loop step preserves fuel adequacy. -/
theorem fuel_step {L offset w n : Nat} (h : L - offset ≤ (n + 1) * w) :
    L - (offset + w) ≤ n * w := by
  have e : (n + 1) * w = n * w + w := by ring
  rw [e] at h
  omega

theorem chunkLoop_nil_of_le {text : List Nat} {w offset : Nat} (h : text.length ≤ offset) :
    ∀ fuel, chunkLoop text w fuel offset = [] := by
  intro fuel
  cases fuel with
  | zero => rfl
  | succ n => simp [chunkLoop, Nat.not_lt.mpr h]

theorem chunkLoopO_nil_of_le {text : List Nat} {w offset : Nat} (h : text.length ≤ offset) :
    ∀ fuel, chunkLoopO text w fuel offset = some [] := by
  intro fuel
  cases fuel with
  | zero => simp [chunkLoopO, Nat.not_lt.mpr h]
  | succ n => simp [chunkLoopO, Nat.not_lt.mpr h]

/-- With enough fuel (`text.length - offset ≤ fuel * w`), the fueled
interpreter exits normally and returns exactly `chunkLoop`'s chunks. -/
theorem chunkLoopO_eq_some {text : List Nat} {w : Nat} :
    ∀ fuel offset, text.length - offset ≤ fuel * w →
      chunkLoopO text w fuel offset = some (chunkLoop text w fuel offset) := by
  intro fuel
  induction fuel with
  | zero =>
    intro offset h
    have h0 : text.length ≤ offset := by omega
    simp [chunkLoopO, chunkLoop, Nat.not_lt.mpr h0]
  | succ n ih =>
    intro offset h
    by_cases hg : offset < text.length
    · simp [chunkLoopO, chunkLoop, hg, ih (offset + w) (fuel_step h)]
    · simp [chunkLoopO, chunkLoop, hg]

/-- Fuel irrelevance: any two sufficient fuels give the same chunk list. -/
theorem chunkLoop_fuel_stable {text : List Nat} {w : Nat} :
    ∀ fuel fuel' offset, text.length - offset ≤ fuel * w →
      text.length - offset ≤ fuel' * w →
      chunkLoop text w fuel offset = chunkLoop text w fuel' offset := by
  intro fuel
  induction fuel with
  | zero =>
    intro fuel' offset h _
    have h0 : text.length ≤ offset := by omega
    rw [chunkLoop_nil_of_le h0, chunkLoop_nil_of_le h0]
  | succ n ih =>
    intro fuel' offset h h'
    by_cases hg : offset < text.length
    · have hf' : fuel' ≠ 0 := by
        intro h0
        subst h0
        simp only [Nat.zero_mul] at h'
        omega
      obtain ⟨m, rfl⟩ := Nat.exists_eq_succ_of_ne_zero hf'
      simp [chunkLoop, hg, ih m (offset + w) (fuel_step h) (fuel_step h')]
    · rw [chunkLoop_nil_of_le (Nat.le_of_not_lt hg),
        chunkLoop_nil_of_le (Nat.le_of_not_lt hg)]

/-- Concatenating the windows reproduces the suffix of the text from the
current offset. -/
theorem chunkLoop_flatten {text : List Nat} {w : Nat} (hw : 1 ≤ w) :
    ∀ fuel offset, text.length - offset ≤ fuel * w →
      ((chunkLoop text w fuel offset).map Prod.snd).flatten = text.drop offset := by
  intro fuel
  induction fuel with
  | zero =>
    intro offset h
    have h0 : text.length ≤ offset := by omega
    rw [chunkLoop_nil_of_le h0]
    simp [List.drop_eq_nil_of_le h0]
  | succ n ih =>
    intro offset h
    by_cases hg : offset < text.length
    · simp only [chunkLoop]
      rw [if_pos hg]
      simp only [List.map_cons, List.flatten_cons]
      rw [ih (offset + w) (fuel_step h)]
      by_cases hle : offset + w ≤ text.length
      · rw [Nat.min_eq_left hle]
        have h1 : text.drop (offset + w) = (text.drop offset).drop w := by
          rw [List.drop_drop]
        have h2 : offset + w - offset = w := by omega
        rw [h1, h2, List.take_append_drop]
      · have he : min (offset + w) text.length = text.length := by omega
        rw [he]
        have h3 : (text.drop offset).length ≤ text.length - offset := by
          rw [List.length_drop]
        rw [List.take_of_length_le h3,
          List.drop_eq_nil_of_le (show text.length ≤ offset + w by omega)]
        simp
    · rw [chunkLoop_nil_of_le (Nat.le_of_not_lt hg)]
      simp [List.drop_eq_nil_of_le (Nat.le_of_not_lt hg)]

/-- Every window the loop produces has at most `w` code points. -/
theorem chunkLoop_window_le {text : List Nat} {w : Nat} :
    ∀ fuel offset, ∀ p ∈ chunkLoop text w fuel offset, p.2.length ≤ w := by
  intro fuel
  induction fuel with
  | zero => intro offset p hp; simp [chunkLoop] at hp
  | succ n ih =>
    intro offset p hp
    by_cases hg : offset < text.length
    · simp only [chunkLoop, hg, if_pos, List.mem_cons] at hp
      rcases hp with hp | hp
      · subst hp
        simp only [List.length_take, List.length_drop]
        have : min (offset + w) text.length - offset ≤ w := by omega
        omega
      · exact ih (offset + w) p hp
    · simp [chunkLoop, hg] at hp

/-- Number of loop iterations: exactly `⌈(text.length - offset) / w⌉`. -/
theorem chunkLoop_length {text : List Nat} {w : Nat} (hw : 1 ≤ w) :
    ∀ fuel offset, text.length - offset ≤ fuel * w →
      (chunkLoop text w fuel offset).length = (text.length - offset + w - 1) / w := by
  intro fuel
  induction fuel with
  | zero =>
    intro offset h
    have h0 : text.length ≤ offset := by omega
    have hz : text.length - offset = 0 := by omega
    rw [chunkLoop_nil_of_le h0, hz]
    simp only [List.length_nil]
    exact (Nat.div_eq_of_lt (by omega)).symm
  | succ n ih =>
    intro offset h
    by_cases hg : offset < text.length
    · simp only [chunkLoop]
      rw [if_pos hg]
      simp only [List.length_cons]
      rw [ih (offset + w) (fuel_step h)]
      have hr1 : 1 ≤ text.length - offset := by omega
      have hrw : text.length - (offset + w) = text.length - offset - w := by omega
      rw [hrw]
      have hR : text.length - offset + w - 1 = (text.length - offset - 1) + w := by omega
      rw [hR, Nat.add_div_right _ (by omega : 0 < w)]
      by_cases hcase : w < text.length - offset
      · have e2 : text.length - offset - w + w - 1 = text.length - offset - 1 := by omega
        rw [e2]
      · have d1 : (text.length - offset - w + w - 1) / w = 0 := Nat.div_eq_of_lt (by omega)
        have d2 : (text.length - offset - 1) / w = 0 := Nat.div_eq_of_lt (by omega)
        rw [d1, d2]
    · have h0 : text.length ≤ offset := Nat.le_of_not_lt hg
      have hz : text.length - offset = 0 := by omega
      rw [chunkLoop_nil_of_le h0, hz]
      simp only [List.length_nil]
      exact (Nat.div_eq_of_lt (by omega)).symm

/-- Each window's base offset is the current offset plus the total length of
the windows taken before it (so the windows are consecutive and
non-overlapping). -/
theorem chunkLoop_starts {text : List Nat} {w : Nat} (hw : 1 ≤ w) :
    ∀ fuel offset, ∀ i p, (chunkLoop text w fuel offset)[i]? = some p →
      p.1 = offset + (((chunkLoop text w fuel offset).take i).map (fun q => q.2.length)).sum := by
  intro fuel
  induction fuel with
  | zero =>
    intro offset i p hp
    simp [chunkLoop] at hp
  | succ n ih =>
    intro offset i p hp
    by_cases hg : offset < text.length
    · simp only [chunkLoop] at hp ⊢
      rw [if_pos hg] at hp ⊢
      cases i with
      | zero =>
        rw [List.getElem?_cons_zero] at hp
        cases hp
        simp
      | succ j =>
        rw [List.getElem?_cons_succ] at hp
        have hrest := ih (offset + w) j p hp
        have hne : chunkLoop text w n (offset + w) ≠ [] := by
          intro h0
          rw [h0] at hp
          simp at hp
        have hlt : offset + w < text.length := by
          by_contra hcon
          exact hne (chunkLoop_nil_of_le (by omega) n)
        have hc0 : ((text.drop offset).take (min (offset + w) text.length - offset)).length
            = w := by
          rw [List.length_take, List.length_drop]
          omega
        rw [List.take_succ_cons, List.map_cons, List.sum_cons, hrest, hc0]
        omega
    · rw [chunkLoop_nil_of_le (Nat.le_of_not_lt hg)] at hp
      simp at hp

theorem mem_matchOutput {run : List Nat → List Nat} {cs : List (Nat × List Nat)} {x : Nat} :
    x ∈ matchOutput run cs ↔ ∃ p ∈ cs, ∃ idx ∈ run p.2, x = p.1 + idx := by
  simp only [matchOutput, List.mem_flatten, List.mem_map]
  constructor
  · rintro ⟨l, ⟨p, hp, rfl⟩, hx⟩
    obtain ⟨idx, hidx, rfl⟩ := List.mem_map.mp hx
    exact ⟨p, hp, idx, hidx, rfl⟩
  · rintro ⟨p, hp, idx, hidx, rfl⟩
    exact ⟨(run p.2).map (fun i => p.1 + i), ⟨p, hp, rfl⟩, List.mem_map.mpr ⟨idx, hidx, rfl⟩⟩

/-- Every printed position lies inside the processed text (assuming the
runner only reports offsets inside its window). -/
theorem matchOutput_lt_length {run : List Nat → List Nat} {text : List Nat} {w : Nat}
    (hb : ∀ c, ∀ i ∈ run c, i < c.length) :
    ∀ fuel offset, ∀ x ∈ matchOutput run (chunkLoop text w fuel offset), x < text.length := by
  intro fuel
  induction fuel with
  | zero =>
    intro offset x hx
    simp [chunkLoop, matchOutput] at hx
  | succ n ih =>
    intro offset x hx
    by_cases hg : offset < text.length
    · simp only [chunkLoop] at hx
      rw [if_pos hg] at hx
      simp only [matchOutput, List.map_cons, List.flatten_cons, List.mem_append] at hx
      rcases hx with hx | hx
      · obtain ⟨idx, hidx, rfl⟩ := List.mem_map.mp hx
        have hlen := hb _ idx hidx
        rw [List.length_take, List.length_drop] at hlen
        omega
      · exact ih (offset + w) x hx
    · rw [chunkLoop_nil_of_le (Nat.le_of_not_lt hg)] at hx
      simp [matchOutput] at hx

/-- The printed positions are strictly ascending, and all of them are at
least the current offset (assuming each runner result is strictly
ascending and stays inside its window). -/
theorem matchOutput_sorted_ge {run : List Nat → List Nat} {text : List Nat} {w : Nat}
    (hs : ∀ c, List.Sorted (· < ·) (run c))
    (hb : ∀ c, ∀ i ∈ run c, i < c.length) :
    ∀ fuel offset,
      List.Sorted (· < ·) (matchOutput run (chunkLoop text w fuel offset))
      ∧ ∀ x ∈ matchOutput run (chunkLoop text w fuel offset), offset ≤ x := by
  intro fuel
  induction fuel with
  | zero =>
    intro offset
    constructor
    · simp [chunkLoop, matchOutput]
    · intro x hx
      simp [chunkLoop, matchOutput] at hx
  | succ n ih =>
    intro offset
    by_cases hg : offset < text.length
    · obtain ⟨ihs, ihge⟩ := ih (offset + w)
      have hsplit : matchOutput run (chunkLoop text w (n + 1) offset)
          = (run ((text.drop offset).take (min (offset + w) text.length - offset))).map
              (fun idx => offset + idx)
            ++ matchOutput run (chunkLoop text w n (offset + w)) := by
        simp only [chunkLoop]
        rw [if_pos hg]
        simp [matchOutput]
      constructor
      · rw [hsplit]
        refine List.pairwise_append.mpr ⟨?_, ihs, ?_⟩
        · exact List.Pairwise.map _ (fun a b hab => by omega) (hs _)
        · intro a ha b hb'
          obtain ⟨idx, hidx, rfl⟩ := List.mem_map.mp ha
          have h1 := hb _ idx hidx
          rw [List.length_take, List.length_drop] at h1
          have h2 := ihge b hb'
          omega
      · intro x hx
        rw [hsplit] at hx
        rcases List.mem_append.mp hx with hx | hx
        · obtain ⟨idx, _, rfl⟩ := List.mem_map.mp hx
          omega
        · have := ihge x hx
          omega
    · constructor
      · rw [chunkLoop_nil_of_le (Nat.le_of_not_lt hg)]
        simp [matchOutput]
      · intro x hx
        rw [chunkLoop_nil_of_le (Nat.le_of_not_lt hg)] at hx
        simp [matchOutput] at hx

/-- The stages of `main` (`main.cpp` lines 67–175) in source order.  A
stage is recorded when the corresponding source line is executed. -/
inductive Stage where
  | localeCheck
  | argStore
  | helpExit
  | argNotify
  | engineSetup
  | regexParseStage
  | graphDump
  | runnerSetup
  | fileRead
  | emptyCheck
  | chunkRun
deriving DecidableEq, Repr

/-- How a run of `main` ends: normally, via the help text (`return 1`), or
with a `user_error` caught at lines 176–178 (caller-facing, message printed
to stderr, `EXIT_FAILURE`). -/
inductive Outcome where
  | success
  | helpShown
  | callerError (msg : String)
deriving DecidableEq, Repr

/-- The boolean command-line switches of `main.cpp` lines 85–89. -/
structure Flags where
  normalizeRegex : Bool
  normalizeFile : Bool
  printGraphFlag : Bool
  printProfile : Bool
  noOutput : Bool
deriving DecidableEq, Repr

/-- The external circumstances of one invocation of `main`: locale check
result, argument-parsing results, the two positional arguments, and the
file system's answer for `--file`.  Byte strings and code-point strings are
both `List Nat`. -/
structure Env where
  utf8 : Bool
  storeOk : Bool
  storeErrMsg : String
  help : Bool
  notifyOk : Bool
  notifyErrMsg : String
  regexUtf8 : List Nat
  fileExists : Bool
  fcontentUtf8 : List Nat
  maxChunkSize : Nat
  flags : Flags
deriving DecidableEq, Repr

/-- Observable result of a terminating run of `main`: which stages were
executed, the windows handed to `runner.run`, the positions printed to
stdout, and the outcome. -/
structure MainResult where
  stages : List Stage
  runWindows : List (List Nat)
  output : List Nat
  outcome : Outcome
deriving DecidableEq, Repr

/-- Exit status of `main`: 0 only for a fully successful run
(`EXIT_SUCCESS`); the help path returns 1 and a caught `user_error`
returns `EXIT_FAILURE`. -/
def exitCode (r : MainResult) : Nat :=
  match r.outcome with
  | .success => 0
  | .helpShown => 1
  | .callerError _ => 1

def utf8ErrorMsg : String := "sorry, this program only works on UTF8 systems"

def emptyFileMsg : String := "Empty files cannot be processed!"

def noFileMsg : String := "file does not exist!"

/-- Straight-line model of `main` (`main.cpp` lines 67–190).  The external
collaborators are parameters: `decode` is `boost::locale::conv::utf_to_utf`
(UTF-8 bytes to code points), `nfkc` is NFKC normalization on code points
(lines 126–131 / 153–158), `parse` is `string_to_graph`, and `run` is
`oclrunner::run`.  The result is `none` exactly when the chunk loop does
not terminate within `text.length` iterations (which, as proved below,
happens precisely when `max_chunk_size = 0` and the text is non-empty). -/
def mainRun (decode nfkc : List Nat → List Nat)
    (parse : List Nat → Except String Unit)
    (run : List Nat → List Nat) (env : Env) : Option MainResult :=
  if env.utf8 = false then
    some ⟨[.localeCheck], [], [], .callerError utf8ErrorMsg⟩
  else if env.storeOk = false then
    some ⟨[.localeCheck, .argStore], [], [], .callerError env.storeErrMsg⟩
  else if env.help = true then
    some ⟨[.localeCheck, .argStore, .helpExit], [], [], .helpShown⟩
  else if env.notifyOk = false then
    some ⟨[.localeCheck, .argStore, .argNotify], [], [], .callerError env.notifyErrMsg⟩
  else
    let s4 : List Stage := [.localeCheck, .argStore, .argNotify, .engineSetup]
    let regexCps := decode env.regexUtf8
    let regexFinal := if env.flags.normalizeRegex then nfkc regexCps else regexCps
    match parse regexFinal with
    | .error msg => some ⟨s4 ++ [.regexParseStage], [], [], .callerError msg⟩
    | .ok _ =>
      let s5 := s4 ++ [Stage.regexParseStage]
        ++ (if env.flags.printGraphFlag then [Stage.graphDump] else [])
      let s6 := s5 ++ [Stage.runnerSetup, Stage.fileRead]
      if env.fileExists = false then
        some ⟨s6, [], [], .callerError noFileMsg⟩
      else if env.fcontentUtf8 = [] then
        some ⟨s6 ++ [Stage.emptyCheck], [], [], .callerError emptyFileMsg⟩
      else
        let textCps := decode env.fcontentUtf8
        let text := if env.flags.normalizeFile then nfkc textCps else textCps
        match chunkLoopO text env.maxChunkSize text.length 0 with
        | none => none
        | some cs =>
          some ⟨s6 ++ [Stage.emptyCheck, Stage.chunkRun],
                cs.map Prod.snd,
                if env.flags.noOutput then [] else matchOutput run cs,
                .success⟩

/-- Modelled from the spec: `string_to_graph` lives in `regex_parser.hpp`,
which is not part of this translation unit.  Per the spec (§4.1, §8) it
fails with a caller-facing pattern error on unbalanced grouping, e.g. on
the pattern `"(a"`.  Only the group-balance check is modelled; the automaton
itself is irrelevant to the driver claims, so success carries `Unit`. -/
def groupBalance (s : List Nat) : Option Nat :=
  s.foldl
    (fun acc c =>
      match acc with
      | none => none
      | some d =>
        if c = 40 then some (d + 1)
        else if c = 41 then (if d = 0 then none else some (d - 1))
        else some d)
    (some 0)

/-- Modelled from the spec: the compile step of §4.1, restricted to the
grouping syntax check. -/
def string_to_graph (s : List Nat) : Except String Unit :=
  match groupBalance s with
  | some 0 => .ok ()
  | _ => .error "unbalanced group"

/-- The serialized automaton `serial::graph` (declared in `common.hpp`,
outside this translation unit; field shape taken from the spec's data
model §3 and from how `print_graph` reads it): state count `n`, uniform
fan-out `o`, and the flat word buffer `data`.  All words (`serial::word`,
`serial::id`, `serial::character`) have the same width, so the
`reinterpret_cast`s in `print_graph` are identities here. -/
structure Graph where
  n : Nat
  o : Nat
  data : List Nat
deriving DecidableEq, Repr

/-- One transition slot as printed by `print_graph`: the symbol and its
`o` target state indices. -/
structure SlotDump where
  symbol : Nat
  targets : List Nat
deriving DecidableEq, Repr

/-- One state as printed by `print_graph`: its index, transition count,
the reserved-state markers, and its transition slots. -/
structure NodeDump where
  index : Nat
  m : Nat
  markBegin : Bool
  markFail : Bool
  markOk : Bool
  slots : List SlotDump
deriving DecidableEq, Repr

/-- Translation of `print_graph` (`main.cpp` lines 29–65) into the record
it prints for each state.  The reserved indices `serial::id_begin`,
`serial::id_fail`, `serial::id_ok` are declared in `common.hpp` (outside
this translation unit); modelled from the spec (§3: three reserved state
indices fixed by convention) as parameters.  Out-of-range reads, undefined
in the C++ source, are totalized to 0. -/
def printGraph (idBegin idFail idOk : Nat) (g : Graph) : List NodeDump :=
  (List.range g.n).map (fun iNode =>
    let baseNode := g.data.getD iNode 0
    let m := g.data.getD baseNode 0
    let baseNodeBody := baseNode + 1
    { index := iNode
      m := m
      markBegin := iNode == idBegin
      markFail := iNode == idFail
      markOk := iNode == idOk
      slots := (List.range m).map (fun iValueSlot =>
        let baseValueSlot := baseNodeBody + iValueSlot * (1 + g.o)
        let baseSlot := baseValueSlot + 1
        { symbol := g.data.getD baseValueSlot 0
          targets := (List.range g.o).map (fun iEntry => g.data.getD (baseSlot + iEntry) 0) }) })

/-- The spec's O(1) accessor contract (§4.2): `base = storage[state_index]`. -/
def specBase (g : Graph) (i : Nat) : Nat :=
  g.data.getD i 0

/-- The spec's accessor contract: `m = storage[base]`. -/
def specM (g : Graph) (i : Nat) : Nat :=
  g.data.getD (specBase g i) 0

/-- The spec's accessor contract: slot `k`'s symbol at
`storage[base + 1 + k*(1+o)]`. -/
def specSymbol (g : Graph) (i k : Nat) : Nat :=
  g.data.getD (specBase g i + 1 + k * (1 + g.o)) 0

/-- The spec's accessor contract: slot `k`'s target `j` at
`storage[base + 1 + k*(1+o) + 1 + j]`. -/
def specTarget (g : Graph) (i k j : Nat) : Nat :=
  g.data.getD (specBase g i + 1 + k * (1 + g.o) + 1 + j) 0

def defaultSlotDump : SlotDump := ⟨0, []⟩

def defaultNodeDump : NodeDump := ⟨0, 0, false, false, false, []⟩

/-- The record `print_graph` emits for state `i`. -/
def dumpAt (idBegin idFail idOk : Nat) (g : Graph) (i : Nat) : NodeDump :=
  (printGraph idBegin idFail idOk g).getD i defaultNodeDump

theorem getD_map_range {α : Type} (n : Nat) (f : Nat → α) (d : α) (i : Nat) (h : i < n) :
    (((List.range n).map f).getD i d) = f i := by
  rw [List.getD_eq_getElem?_getD, List.getElem?_map, List.getElem?_range h]
  rfl

theorem dumpAt_eq (idBegin idFail idOk : Nat) (g : Graph) (i : Nat) (h : i < g.n) :
    dumpAt idBegin idFail idOk g i =
      { index := i
        m := specM g i
        markBegin := i == idBegin
        markFail := i == idFail
        markOk := i == idOk
        slots := (List.range (specM g i)).map (fun k =>
          { symbol := specSymbol g i k
            targets := (List.range g.o).map (fun j => specTarget g i k j) }) } := by
  rw [dumpAt, printGraph, getD_map_range g.n _ _ i h]
  simp only [specM, specBase, specSymbol, specTarget]

theorem length_le_mul {L w : Nat} (hw : 1 ≤ w) : L - 0 ≤ L * w := by
  have h1 : L * 1 ≤ L * w := Nat.mul_le_mul_left _ hw
  omega

/-- C1: for every non-empty decoded input text and every positive
`max_chunk_size` `w`, the chunking loop of `main` partitions the text into
consecutive, non-overlapping windows — each of at most `w` code points,
each beginning exactly where the previous windows end — whose concatenation
is the input text. -/
theorem chunking_partitions (text : List Nat) (w : Nat) (hw : 1 ≤ w) (hne : text ≠ []) :
    ((chunks text w).map Prod.snd).flatten = text
    ∧ (∀ p ∈ chunks text w, p.2.length ≤ w)
    ∧ (∀ i p, (chunks text w)[i]? = some p →
        p.1 = (((chunks text w).take i).map (fun q => q.2.length)).sum) := by
  have hfu : text.length - 0 ≤ text.length * w := length_le_mul hw
  refine ⟨?_, ?_, ?_⟩
  · rw [chunks, chunkLoop_flatten hw text.length 0 hfu]
    simp
  · exact fun p hp => chunkLoop_window_le text.length 0 p hp
  · intro i p hp
    have h := chunkLoop_starts hw text.length 0 i p hp
    simpa using h

/-- Witness for `chunking_partitions` on the text "abc" with window size 2. -/
theorem chunking_partitions_witness :
    ((chunks [97, 98, 99] 2).map Prod.snd).flatten = [97, 98, 99] :=
  (chunking_partitions [97, 98, 99] 2 (by decide) (by decide)).1

/-- C2: a position is printed by the loop of lines 168–174 iff it is
`offset + idx` for some window `(offset, c)` of the chunked input and some
local match index `idx` returned by `runner.run c`. -/
theorem global_positions (run : List Nat → List Nat) (text : List Nat) (w pos : Nat) :
    pos ∈ matchOutput run (chunks text w)
      ↔ ∃ p ∈ chunks text w, ∃ idx ∈ run p.2, pos = p.1 + idx :=
  mem_matchOutput

/-- C5: for every positive `w` and non-empty text of length `L`, the chunk
loop terminates — its result is stable for every fuel from `L` on, and the
fueled interpreter exits normally — and it issues exactly `⌈L/w⌉` calls of
`runner.run`, which is at least two when `w < L`. -/
theorem run_call_count (text : List Nat) (w : Nat) (hw : 1 ≤ w) (hne : text ≠ []) :
    (chunks text w).length = (text.length + w - 1) / w
    ∧ (w < text.length → 2 ≤ (chunks text w).length)
    ∧ chunkLoopO text w text.length 0 = some (chunks text w)
    ∧ (∀ fuel, text.length ≤ fuel → chunkLoop text w fuel 0 = chunks text w) := by
  have hfu : text.length - 0 ≤ text.length * w := length_le_mul hw
  have hlen := chunkLoop_length hw text.length 0 hfu
  refine ⟨by simpa using hlen, ?_, chunkLoopO_eq_some text.length 0 hfu, ?_⟩
  · intro hlt
    rw [chunks, hlen]
    exact (Nat.le_div_iff_mul_le (by omega)).mpr (by omega)
  · intro fuel hf
    have hfu' : text.length - 0 ≤ fuel * w := by
      have h1 : fuel * 1 ≤ fuel * w := Nat.mul_le_mul_left _ hw
      omega
    exact chunkLoop_fuel_stable fuel text.length 0 hfu' hfu

/-- Witness for `run_call_count` on the text "abc" with window size 2. -/
theorem run_call_count_witness :
    (chunks [97, 98, 99] 2).length = ([97, 98, 99].length + 2 - 1) / 2 :=
  (run_call_count [97, 98, 99] 2 (by decide) (by decide)).1

/-- C7: if every `runner.run` call returns its local offsets strictly
ascending and inside its window, the global match positions printed across
all windows of one input are strictly ascending. -/
theorem printed_positions_ascending (run : List Nat → List Nat) (text : List Nat) (w : Nat)
    (hs : ∀ c, List.Sorted (· < ·) (run c))
    (hb : ∀ c, ∀ i ∈ run c, i < c.length) :
    List.Sorted (· < ·) (matchOutput run (chunks text w)) :=
  (matchOutput_sorted_ge hs hb text.length 0).1

/-- Witness for `printed_positions_ascending` with the runner that reports
every start offset of its window, on "abc" with window size 2. -/
theorem printed_positions_ascending_witness :
    List.Sorted (· < ·)
      (matchOutput (fun c => List.range c.length) (chunks [97, 98, 99] 2)) :=
  printed_positions_ascending (fun c => List.range c.length) [97, 98, 99] 2
    (fun c => List.pairwise_lt_range c.length)
    (fun _ i hi => List.mem_range.mp hi)

/-- C6: for every automaton and every state index `i < n`, the record
`print_graph` emits for state `i` is computed by exactly the contractual
accessor arithmetic of §4.2 — `base = storage[i]`, `m = storage[base]`,
slot `k`'s symbol at `storage[base + 1 + k*(1+o)]` and its `o` targets at
the following words — and the reserved begin/fail/ok states are marked, so
every field is reconstructed from the automaton alone. -/
theorem print_graph_reconstructs (idBegin idFail idOk : Nat) (g : Graph) (i : Nat)
    (h : i < g.n) :
    (printGraph idBegin idFail idOk g).length = g.n
    ∧ (dumpAt idBegin idFail idOk g i).index = i
    ∧ (dumpAt idBegin idFail idOk g i).m = specM g i
    ∧ ((dumpAt idBegin idFail idOk g i).markBegin = true ↔ i = idBegin)
    ∧ ((dumpAt idBegin idFail idOk g i).markFail = true ↔ i = idFail)
    ∧ ((dumpAt idBegin idFail idOk g i).markOk = true ↔ i = idOk)
    ∧ (dumpAt idBegin idFail idOk g i).slots.length = specM g i
    ∧ (∀ k, k < specM g i →
        ((dumpAt idBegin idFail idOk g i).slots.getD k defaultSlotDump).symbol
          = specSymbol g i k
        ∧ ((dumpAt idBegin idFail idOk g i).slots.getD k defaultSlotDump).targets.length
          = g.o
        ∧ ∀ j, j < g.o →
            ((dumpAt idBegin idFail idOk g i).slots.getD k defaultSlotDump).targets.getD j 0
              = specTarget g i k j) := by
  rw [dumpAt_eq idBegin idFail idOk g i h]
  refine ⟨by simp [printGraph], rfl, rfl, by simp, by simp, by simp, by simp, ?_⟩
  intro k hk
  rw [getD_map_range _ _ _ k hk]
  refine ⟨rfl, by simp, ?_⟩
  intro j hj
  rw [getD_map_range _ _ _ j hj]

def sampleGraph : Graph := ⟨1, 2, [1, 1, 97, 0, 0]⟩

/-- Witness for `print_graph_reconstructs` on a one-state automaton with
fan-out 2 and a single transition on symbol 97. -/
theorem print_graph_reconstructs_witness :
    (dumpAt 0 1 2 sampleGraph 0).m = specM sampleGraph 0 :=
  (print_graph_reconstructs 0 1 2 sampleGraph 0 (by decide)).2.2.1

def envInvalidPattern : Env :=
  { utf8 := true, storeOk := true, storeErrMsg := "", help := false,
    notifyOk := true, notifyErrMsg := "",
    regexUtf8 := [40, 97],
    fileExists := true, fcontentUtf8 := [97],
    maxChunkSize := 16777216,
    flags := ⟨false, false, false, false, false⟩ }

def invalidPatternResult : MainResult :=
  ⟨[.localeCheck, .argStore, .argNotify, .engineSetup, .regexParseStage], [], [],
   .callerError "unbalanced group"⟩

/-- C3 counterexample: invoked with the invalid pattern "(a" (code points
40, 97), `main` does fail compilation with a caller-facing error, but the
OpenCL engine is constructed at line 121 BEFORE `string_to_graph` runs at
line 135, so the Compute Engine stage IS reached before the error. -/
theorem engine_setup_before_pattern_error :
    mainRun id id string_to_graph (fun _ => []) envInvalidPattern = some invalidPatternResult
    ∧ Stage.engineSetup ∈ invalidPatternResult.stages
    ∧ invalidPatternResult.outcome = .callerError "unbalanced group" := by
  refine ⟨?_, by decide, rfl⟩
  rfl

/-- C3 (amended): for every invalid regex pattern, `main` fails with a
caller-facing compilation error, and neither the Match Runner construction
nor any automaton/input upload or `run` call is reached; the Compute Engine
itself, however, is constructed before pattern compilation. -/
theorem invalid_pattern_stops_before_runner (decode nfkc : List Nat → List Nat)
    (parse : List Nat → Except String Unit) (run : List Nat → List Nat) (env : Env)
    (h1 : env.utf8 = true) (h2 : env.storeOk = true) (h3 : env.help = false)
    (h4 : env.notifyOk = true) (msg : String)
    (hp : parse (if env.flags.normalizeRegex then nfkc (decode env.regexUtf8)
                 else decode env.regexUtf8) = .error msg) :
    ∃ r, mainRun decode nfkc parse run env = some r
      ∧ r.outcome = .callerError msg
      ∧ Stage.runnerSetup ∉ r.stages
      ∧ Stage.chunkRun ∉ r.stages
      ∧ r.runWindows = []
      ∧ Stage.engineSetup ∈ r.stages
      ∧ exitCode r = 1 := by
  refine ⟨⟨[.localeCheck, .argStore, .argNotify, .engineSetup, .regexParseStage], [], [],
           .callerError msg⟩, ?_, rfl,
    (by decide : Stage.runnerSetup ∉ [Stage.localeCheck, Stage.argStore, Stage.argNotify,
      Stage.engineSetup, Stage.regexParseStage]),
    (by decide : Stage.chunkRun ∉ [Stage.localeCheck, Stage.argStore, Stage.argNotify,
      Stage.engineSetup, Stage.regexParseStage]),
    rfl,
    (by decide : Stage.engineSetup ∈ [Stage.localeCheck, Stage.argStore, Stage.argNotify,
      Stage.engineSetup, Stage.regexParseStage]),
    rfl⟩
  simp [mainRun, h1, h2, h3, h4, hp]

/-- Witness for `invalid_pattern_stops_before_runner` on the pattern "(a". -/
theorem invalid_pattern_stops_before_runner_witness :
    ∃ r, mainRun id id string_to_graph (fun _ => []) envInvalidPattern = some r
      ∧ r.outcome = .callerError "unbalanced group"
      ∧ Stage.runnerSetup ∉ r.stages
      ∧ Stage.chunkRun ∉ r.stages
      ∧ r.runWindows = []
      ∧ Stage.engineSetup ∈ r.stages
      ∧ exitCode r = 1 :=
  invalid_pattern_stops_before_runner id id string_to_graph (fun _ => []) envInvalidPattern
    rfl rfl rfl rfl "unbalanced group" rfl

/-- The chunk loop with `max_chunk_size = 0` on a non-empty text makes no
progress: no fuel bound suffices, i.e. the real (unfueled) loop runs
forever. -/
theorem chunkLoopO_zero_w_none {text : List Nat} (hne : text ≠ []) :
    ∀ fuel, chunkLoopO text 0 fuel 0 = none := by
  have hlen : 0 < text.length := List.length_pos.mpr hne
  intro fuel
  induction fuel with
  | zero => simp [chunkLoopO, hlen]
  | succ n ih => simp [chunkLoopO, hlen, ih]

/-- C4 (code bug): `main` never validates `--max-chunk-size 0`.  On any
non-empty input the chunk loop then advances `offset += 0` forever: no
caller-facing error is reported and the program does not terminate
(modelled as `mainRun = none`, and as `chunkLoopO` exhausting every fuel). -/
theorem zero_chunk_size_diverges (decode nfkc : List Nat → List Nat)
    (parse : List Nat → Except String Unit) (run : List Nat → List Nat) (env : Env)
    (h1 : env.utf8 = true) (h2 : env.storeOk = true) (h3 : env.help = false)
    (h4 : env.notifyOk = true)
    (hp : parse (if env.flags.normalizeRegex then nfkc (decode env.regexUtf8)
                 else decode env.regexUtf8) = .ok ())
    (h6 : env.fileExists = true) (h7 : env.fcontentUtf8 ≠ [])
    (h8 : (if env.flags.normalizeFile then nfkc (decode env.fcontentUtf8)
           else decode env.fcontentUtf8) ≠ [])
    (hw : env.maxChunkSize = 0) :
    mainRun decode nfkc parse run env = none
    ∧ ∀ fuel, chunkLoopO (if env.flags.normalizeFile then nfkc (decode env.fcontentUtf8)
          else decode env.fcontentUtf8) 0 fuel 0 = none := by
  have hdiv := chunkLoopO_zero_w_none h8
  refine ⟨?_, hdiv⟩
  simp [mainRun, h1, h2, h3, h4, hp, h6, h7, hw, hdiv]

def envZeroChunk : Env :=
  { utf8 := true, storeOk := true, storeErrMsg := "", help := false,
    notifyOk := true, notifyErrMsg := "",
    regexUtf8 := [97],
    fileExists := true, fcontentUtf8 := [97],
    maxChunkSize := 0,
    flags := ⟨false, false, false, false, false⟩ }

/-- Witness for `zero_chunk_size_diverges`: pattern "a", file content "a",
`--max-chunk-size 0`. -/
theorem zero_chunk_size_diverges_witness :
    mainRun id id (fun _ => Except.ok ()) (fun _ => []) envZeroChunk = none
    ∧ chunkLoopO [97] 0 5 0 = none := by
  have h := zero_chunk_size_diverges id id (fun _ => Except.ok ()) (fun _ => [])
    envZeroChunk rfl rfl rfl rfl rfl rfl (by decide) (by decide) rfl
  exact ⟨h.1, h.2 5⟩

/-- Modelled from the spec/boost behaviour: `utf_to_utf` (outside this
translation unit) converts with a skipping policy, dropping invalid input
units; this decoder keeps ASCII bytes and drops everything else, so a file
holding only the invalid byte 0xFF decodes to the empty code-point
sequence. -/
def decodeSkip (l : List Nat) : List Nat :=
  l.filter (fun c => decide (c < 128))

def envInvalidBytes : Env :=
  { utf8 := true, storeOk := true, storeErrMsg := "", help := false,
    notifyOk := true, notifyErrMsg := "",
    regexUtf8 := [97],
    fileExists := true, fcontentUtf8 := [255],
    maxChunkSize := 16777216,
    flags := ⟨false, false, false, false, false⟩ }

/-- C8 counterexample: a file holding the single invalid byte 0xFF has
EMPTY decoded content, yet `main` checks raw-byte emptiness (line 145)
before decoding (line 150): the check passes, the chunk loop body runs zero
times, and the program exits EXIT_SUCCESS with no error — refuting the
claim, which quantifies over files whose decoded content is empty. -/
theorem empty_decoded_content_no_error :
    decodeSkip envInvalidBytes.fcontentUtf8 = []
    ∧ envInvalidBytes.fcontentUtf8 ≠ []
    ∧ mainRun decodeSkip id string_to_graph (fun _ => []) envInvalidBytes
        = some ⟨[.localeCheck, .argStore, .argNotify, .engineSetup, .regexParseStage,
                 .runnerSetup, .fileRead, .emptyCheck, .chunkRun], [], [], .success⟩
    ∧ exitCode ⟨[.localeCheck, .argStore, .argNotify, .engineSetup, .regexParseStage,
                 .runnerSetup, .fileRead, .emptyCheck, .chunkRun], [], [], .success⟩ = 0 := by
  refine ⟨rfl, by decide, ?_, rfl⟩
  rfl

/-- C8 (amended): a file whose RAW byte content is empty makes `main` fail
with the caller-facing error "Empty files cannot be processed!" (the check
at line 145 reads `fcontent_utf8`, the undecoded bytes) and exit with
failure status; the chunk loop is never entered, so no `runner.run` call is
made.  A non-empty file whose DECODED content is empty instead passes the
check and exits successfully, as the counterexample above shows. -/
theorem empty_file_error (decode nfkc : List Nat → List Nat)
    (parse : List Nat → Except String Unit) (run : List Nat → List Nat) (env : Env)
    (h1 : env.utf8 = true) (h2 : env.storeOk = true) (h3 : env.help = false)
    (h4 : env.notifyOk = true)
    (hp : parse (if env.flags.normalizeRegex then nfkc (decode env.regexUtf8)
                 else decode env.regexUtf8) = .ok ())
    (h6 : env.fileExists = true) (h7 : env.fcontentUtf8 = []) :
    ∃ r, mainRun decode nfkc parse run env = some r
      ∧ r.outcome = .callerError emptyFileMsg
      ∧ r.runWindows = []
      ∧ Stage.chunkRun ∉ r.stages
      ∧ exitCode r = 1 := by
  by_cases hpg : env.flags.printGraphFlag = true
  · refine ⟨⟨[.localeCheck, .argStore, .argNotify, .engineSetup, .regexParseStage, .graphDump,
        .runnerSetup, .fileRead, .emptyCheck], [], [], .callerError emptyFileMsg⟩, ?_,
      rfl, rfl,
      (by decide : Stage.chunkRun ∉ [Stage.localeCheck, Stage.argStore, Stage.argNotify,
        Stage.engineSetup, Stage.regexParseStage, Stage.graphDump, Stage.runnerSetup,
        Stage.fileRead, Stage.emptyCheck]),
      rfl⟩
    simp [mainRun, h1, h2, h3, h4, hp, h6, h7, hpg]
  · refine ⟨⟨[.localeCheck, .argStore, .argNotify, .engineSetup, .regexParseStage,
        .runnerSetup, .fileRead, .emptyCheck], [], [], .callerError emptyFileMsg⟩, ?_,
      rfl, rfl,
      (by decide : Stage.chunkRun ∉ [Stage.localeCheck, Stage.argStore, Stage.argNotify,
        Stage.engineSetup, Stage.regexParseStage, Stage.runnerSetup,
        Stage.fileRead, Stage.emptyCheck]),
      rfl⟩
    simp [mainRun, h1, h2, h3, h4, hp, h6, h7, hpg]

def envEmptyFile : Env :=
  { utf8 := true, storeOk := true, storeErrMsg := "", help := false,
    notifyOk := true, notifyErrMsg := "",
    regexUtf8 := [97],
    fileExists := true, fcontentUtf8 := [],
    maxChunkSize := 16777216,
    flags := ⟨false, false, false, false, false⟩ }

/-- Witness for `empty_file_error`: pattern "a", an existing empty file. -/
theorem empty_file_error_witness :
    ∃ r, mainRun id id string_to_graph (fun _ => []) envEmptyFile = some r
      ∧ r.outcome = .callerError emptyFileMsg
      ∧ r.runWindows = []
      ∧ Stage.chunkRun ∉ r.stages
      ∧ exitCode r = 1 :=
  empty_file_error id id string_to_graph (fun _ => []) envEmptyFile
    rfl rfl rfl rfl rfl rfl rfl

/-- The stages of a run of `main` that completes the chunk loop. -/
def stagesLoopDone (pg : Bool) : List Stage :=
  [Stage.localeCheck, .argStore, .argNotify, .engineSetup] ++ [Stage.regexParseStage]
    ++ (if pg then [Stage.graphDump] else []) ++ [Stage.runnerSetup, Stage.fileRead]
    ++ [Stage.emptyCheck, Stage.chunkRun]

/-- Reduction of `mainRun` on the happy path, once the chunk loop's result
list `cs` is known. -/
theorem mainRun_loop_result (decode nfkc : List Nat → List Nat)
    (parse : List Nat → Except String Unit) (run : List Nat → List Nat) (env : Env)
    (h1 : env.utf8 = true) (h2 : env.storeOk = true) (h3 : env.help = false)
    (h4 : env.notifyOk = true)
    (hp : parse (if env.flags.normalizeRegex then nfkc (decode env.regexUtf8)
                 else decode env.regexUtf8) = .ok ())
    (h6 : env.fileExists = true) (h7 : env.fcontentUtf8 ≠ [])
    (cs : List (Nat × List Nat))
    (hcs : chunkLoopO (if env.flags.normalizeFile then nfkc (decode env.fcontentUtf8)
          else decode env.fcontentUtf8) env.maxChunkSize
        (if env.flags.normalizeFile then nfkc (decode env.fcontentUtf8)
          else decode env.fcontentUtf8).length 0 = some cs) :
    mainRun decode nfkc parse run env
      = some ⟨stagesLoopDone env.flags.printGraphFlag, cs.map Prod.snd,
              if env.flags.noOutput = true then [] else matchOutput run cs,
              .success⟩ := by
  simp [mainRun, h1, h2, h3, h4, hp, h6, h7, hcs, stagesLoopDone]

/-- C9: with `--normalize-file`, the text that `main` chunks and matches is
the NFKC-normalized code-point sequence, and (given that the runner reports
only offsets inside its window) every reported match position is a position
within that normalized sequence — not within the original file's code-point
sequence. -/
theorem normalize_file_offsets (decode nfkc : List Nat → List Nat)
    (parse : List Nat → Except String Unit) (run : List Nat → List Nat) (env : Env)
    (h1 : env.utf8 = true) (h2 : env.storeOk = true) (h3 : env.help = false)
    (h4 : env.notifyOk = true)
    (hp : parse (if env.flags.normalizeRegex then nfkc (decode env.regexUtf8)
                 else decode env.regexUtf8) = .ok ())
    (h6 : env.fileExists = true) (h7 : env.fcontentUtf8 ≠ [])
    (hnf : env.flags.normalizeFile = true)
    (hno : env.flags.noOutput = false)
    (hw : 1 ≤ env.maxChunkSize)
    (hb : ∀ c, ∀ i ∈ run c, i < c.length) :
    ∃ r, mainRun decode nfkc parse run env = some r
      ∧ r.runWindows.flatten = nfkc (decode env.fcontentUtf8)
      ∧ r.output = matchOutput run (chunks (nfkc (decode env.fcontentUtf8)) env.maxChunkSize)
      ∧ ∀ pos ∈ r.output, pos < (nfkc (decode env.fcontentUtf8)).length := by
  have hTif : (if env.flags.normalizeFile then nfkc (decode env.fcontentUtf8)
      else decode env.fcontentUtf8) = nfkc (decode env.fcontentUtf8) := by
    rw [hnf]
    simp
  have hfu : (nfkc (decode env.fcontentUtf8)).length - 0
      ≤ (nfkc (decode env.fcontentUtf8)).length * env.maxChunkSize := length_le_mul hw
  have hcs : chunkLoopO (if env.flags.normalizeFile then nfkc (decode env.fcontentUtf8)
        else decode env.fcontentUtf8) env.maxChunkSize
      (if env.flags.normalizeFile then nfkc (decode env.fcontentUtf8)
        else decode env.fcontentUtf8).length 0
      = some (chunks (nfkc (decode env.fcontentUtf8)) env.maxChunkSize) := by
    rw [hTif]
    exact chunkLoopO_eq_some _ 0 hfu
  refine ⟨_, mainRun_loop_result decode nfkc parse run env h1 h2 h3 h4 hp h6 h7 _ hcs,
    ?_, ?_, ?_⟩
  · rw [chunks, chunkLoop_flatten hw _ 0 hfu]
    simp
  · rw [hno]
    simp
  · intro pos hpos
    rw [hno] at hpos
    simp only [if_neg] at hpos
    exact matchOutput_lt_length hb _ 0 pos (by simpa using hpos)

def envNormalize : Env :=
  { utf8 := true, storeOk := true, storeErrMsg := "", help := false,
    notifyOk := true, notifyErrMsg := "",
    regexUtf8 := [97],
    fileExists := true, fcontentUtf8 := [98],
    maxChunkSize := 2,
    flags := ⟨false, true, false, false, false⟩ }

/-- Witness for `normalize_file_offsets`: the modelled normalization
prepends code point 97, so the normalized text [97, 98] differs in length
from the file content [98]. -/
theorem normalize_file_offsets_witness :
    ∃ r, mainRun id (fun l => 97 :: l) string_to_graph (fun c => List.range c.length)
          envNormalize = some r
      ∧ r.runWindows.flatten = (fun l => 97 :: l) (id ([98] : List Nat))
      ∧ r.output = matchOutput (fun c => List.range c.length)
          (chunks ((fun l => 97 :: l) (id ([98] : List Nat))) 2)
      ∧ ∀ pos ∈ r.output, pos < ((fun l => 97 :: l) (id ([98] : List Nat))).length :=
  normalize_file_offsets id (fun l => 97 :: l) string_to_graph
    (fun c => List.range c.length) envNormalize
    rfl rfl rfl rfl rfl rfl (by decide) rfl rfl (by decide)
    (fun _ i hi => List.mem_range.mp hi)

/-- C10: on a system whose locale is not UTF-8, `main` fails with the
caller-facing error "sorry, this program only works on UTF8 systems" as its
very first action — before argument parsing, pattern compilation, or
engine construction — and exits with failure status. -/
theorem non_utf8_fails_first (decode nfkc : List Nat → List Nat)
    (parse : List Nat → Except String Unit) (run : List Nat → List Nat) (env : Env)
    (h : env.utf8 = false) :
    mainRun decode nfkc parse run env
      = some ⟨[Stage.localeCheck], [], [], .callerError utf8ErrorMsg⟩
    ∧ Stage.argStore ∉ [Stage.localeCheck]
    ∧ Stage.engineSetup ∉ [Stage.localeCheck]
    ∧ Stage.regexParseStage ∉ [Stage.localeCheck]
    ∧ exitCode ⟨[Stage.localeCheck], [], [], .callerError utf8ErrorMsg⟩ = 1 := by
  refine ⟨?_, by decide, by decide, by decide, rfl⟩
  simp [mainRun, h]

def envNonUtf8 : Env :=
  { utf8 := false, storeOk := true, storeErrMsg := "", help := false,
    notifyOk := true, notifyErrMsg := "",
    regexUtf8 := [97],
    fileExists := true, fcontentUtf8 := [97],
    maxChunkSize := 16777216,
    flags := ⟨false, false, false, false, false⟩ }

/-- Witness for `non_utf8_fails_first`. -/
theorem non_utf8_fails_first_witness :
    mainRun id id string_to_graph (fun _ => []) envNonUtf8
      = some ⟨[Stage.localeCheck], [], [], .callerError utf8ErrorMsg⟩
    ∧ Stage.argStore ∉ [Stage.localeCheck]
    ∧ Stage.engineSetup ∉ [Stage.localeCheck]
    ∧ Stage.regexParseStage ∉ [Stage.localeCheck]
    ∧ exitCode ⟨[Stage.localeCheck], [], [], .callerError utf8ErrorMsg⟩ = 1 :=
  non_utf8_fails_first id id string_to_graph (fun _ => []) envNonUtf8 rfl
